import Mathlib

/-
Verification of the pathpy interactive network-visualisation engine
(`network.js`) and its temporal slider control (`slider.js`).

The JavaScript source is shallowly embedded: JS numbers are modelled as
exact rationals (ℚ), fallible code (code paths that would throw a
TypeError) returns `Option`, and the in-place mutations performed by
`render()` are modelled as explicit state passing.  Each definition below
names, in its doc comment, the source function it embeds.
-/

set_option allowUnsafeReducibility true
attribute [semireducible] Rat.add Rat.mul Rat.sub Rat.inv

/-- Left-biased choice on optional attribute values: the semantics of a
single property copy in `Object.assign(target, patch)` (a property present
in the patch overwrites the target's). -/
def oOr {α : Type} (x y : Option α) : Option α :=
  match x with
  | some v => some v
  | none => y

/-- The node attributes read or written by the engine (`network.js`): the
optional payload fields `label`, `group`, `size`, `color`, `weight`, the
`radius` written by `setupData`, and the `time` stamped onto a node when a
temporal change object is `Object.assign`ed onto it.  Fields that are
`none` model absent (`undefined`) JS properties. -/
structure NodeAttrs where
  label : Option String
  group : Option String
  size : Option ℚ
  color : Option String
  weight : Option ℚ
  radius : Option ℚ
  time : Option ℚ
deriving DecidableEq

/-- Attribute record with every property absent. -/
def NodeAttrs.empty : NodeAttrs :=
  ⟨none, none, none, none, none, none, none⟩

/-- Field-wise `Object.assign`: properties present in `p` overwrite those
of `a`. -/
def overrideAttrs (p a : NodeAttrs) : NodeAttrs :=
  { label := oOr p.label a.label
    group := oOr p.group a.group
    size := oOr p.size a.size
    color := oOr p.color a.color
    weight := oOr p.weight a.weight
    radius := oOr p.radius a.radius
    time := oOr p.time a.time }

/-- A node of the network: its unique id, its attribute bag, and the
`searched` flag written by `chart.updateSearch`. -/
structure Node where
  uid : String
  attrs : NodeAttrs
  searched : Bool
deriving DecidableEq

/-- A scheduled temporal change record from the payload's `changes` list:
`{uid, time, ...patch}`. -/
structure Change where
  uid : String
  time : ℚ
  patch : NodeAttrs
deriving DecidableEq

/-- The property set that `Object.assign(node, change)` copies onto a
matched node: the patch fields plus the change's own `time` property.
(The change's `uid` is also copied, but it equals the matched node's `uid`
by the match condition, so the node is unchanged in that field.) -/
def patchOfChange (c : Change) : NodeAttrs :=
  { c.patch with time := some c.time }

/-- Effect of `Object.assign(newUpdatedNodes[objIndex], n)` in
`updateTemporalNodes` on the matched node. -/
def assignChange (c : Change) (n : Node) : Node :=
  { n with attrs := overrideAttrs (patchOfChange c) n.attrs }

/-- A resolved edge as produced by `setupData`: `source`/`target` hold the
uid of the resolved endpoint Node objects, `uid` is the derived key
`source.uid + '_' + target.uid`, and `time` is the optional timestamp read
by the temporal filter and classifier. -/
structure Link where
  source : String
  target : String
  uid : String
  time : Option ℚ
deriving DecidableEq

/-- A raw edge of the input payload, before endpoint resolution. -/
structure RawLink where
  source : String
  target : String
  time : Option ℚ
deriving DecidableEq

/-- The `{past, time, aggregated, future}` marker record pushed by the
slider to `chart.updateTime`. -/
structure TimeWindow where
  past : ℚ
  time : ℚ
  aggregated : ℚ
  future : ℚ
deriving DecidableEq

/-- The input payload `{nodes, links, changes}`. -/
structure RawData where
  nodes : List Node
  links : List RawLink
  changes : List Change
deriving DecidableEq

/-- The data owned by the chart after `setupData`: nodes (with their
`radius` written), resolved links, changes, and the size extent used by
`scaleRadius`. -/
structure NetData where
  nodes : List Node
  links : List Link
  changes : List Change
  countExtent : ℚ × ℚ
deriving DecidableEq

/-- The getColor helper of `network.js`: the object's `color` attribute,
with default fall-back. -/
def getColor (n : Node) : String :=
  match n.attrs.color with
  | none => "#99ccff"
  | some c => c

/-- The getSize helper of `network.js`: the object's `size` attribute,
defaulting to 6. -/
def getSize (n : Node) : ℚ :=
  match n.attrs.size with
  | none => 6
  | some s => s

/-- The getName helper of `network.js`: the display name is the `label`
attribute, falling back to the `uid`. -/
def getName (n : Node) : String :=
  match n.attrs.label with
  | none => n.uid
  | some l => l

/-- A d3 linear scale with domain `[lo, hi]` and range `[r0, r1]`, not
clamped (`d3.scaleLinear()`); a degenerate domain maps every input to the
midpoint of the range (d3's `normalize` returns the constant 1/2 when the
domain has zero width). -/
def linearScale (lo hi r0 r1 v : ℚ) : ℚ :=
  if hi = lo then r0 + (r1 - r0) / 2
  else r0 + (v - lo) / (hi - lo) * (r1 - r0)

/-- The scaleRadius helper of `network.js`: a linear scale from the size
extent onto `[radiusMinSize, radiusMaxSize]`, applied to `getSize`. -/
def scaleRadius (ext : ℚ × ℚ) (radiusMinSize radiusMaxSize : ℚ) (n : Node) : ℚ :=
  linearScale ext.1 ext.2 radiusMinSize radiusMaxSize (getSize n)

/-- The extent `d3.extent(data.nodes, getSize)` computed by `setupData`.
An empty node list gives `[undefined, undefined]` in d3; that degenerate
case is modelled as `(0, 0)`. -/
def countExtentOf (nodes : List Node) : ℚ × ℚ :=
  match nodes.map getSize with
  | [] => (0, 0)
  | q :: qs => (qs.foldl min q, qs.foldl max q)

/-- Key lookup in `d3.map(nodesData, d => d.uid)`: when several nodes share
a uid the later entry overwrites the earlier, and a missing key yields
`undefined` (`none`). -/
def lookupNode (nodes : List Node) (u : String) : Option Node :=
  nodes.reverse.find? (fun n => n.uid == u)

/-- Endpoint resolution for one link in `setupData`: both raw ids are
looked up in the node map; on success the link points at the resolved
node objects and gets its derived uid.  A failed lookup yields `none`,
modelling the TypeError thrown by `l.source.uid` on `undefined`. -/
def resolveLink (nodes : List Node) (l : RawLink) : Option Link :=
  match lookupNode nodes l.source, lookupNode nodes l.target with
  | some s, some t => some ⟨s.uid, t.uid, s.uid ++ "_" ++ t.uid, l.time⟩
  | _, _ => none

/-- Sequencing of the per-link `forEach` body of `setupData`: the first
failing link aborts the whole load with an exception (`none`). -/
def resolveAll (nodes : List Node) : List RawLink → Option (List Link)
  | [] => some []
  | l :: ls =>
    match resolveLink nodes l, resolveAll nodes ls with
    | some r, some rs => some (r :: rs)
    | _, _ => none

/-- The setupData function of `network.js` with the default radius range
`[4, 16]`: computes the size extent, writes each node's `radius`, and
resolves every link's endpoints through the uid map.  `none` models the
TypeError raised when a link references an unknown node id. -/
def setupData (raw : RawData) : Option NetData :=
  let ext := countExtentOf raw.nodes
  let processed := raw.nodes.map
    (fun n => { n with attrs := { n.attrs with radius := some (scaleRadius ext 4 16 n) } })
  match resolveAll processed raw.links with
  | some links => some ⟨processed, links, raw.changes, ext⟩
  | none => none

/-- The group-filter predicate of `filterNodes` in `network.js`: when a
group is selected, a node is kept iff `filter === d.group` and the
callback's return value `d.group` is truthy (a non-empty string); with the
`all` setting every node is kept. -/
def keepNode (fl : String) (n : Node) : Bool :=
  fl == "all" || ((n.attrs.group == some fl) && !(fl == ""))

/-- The filterNodes function of `network.js`. -/
def filterNodes (fl : String) (nodes : List Node) : List Node :=
  nodes.filter (keepNode fl)

/-- The filterEdges function of `network.js`: keep the edges whose two
endpoint uids are both present (truthily) in the map built from the
currently considered nodes. -/
def filterEdges (edgesData : List Link) (nodesData : List Node) : List Link :=
  edgesData.filter
    (fun l => (lookupNode nodesData l.source).isSome && (lookupNode nodesData l.target).isSome)

/-- Replace the first list entry satisfying `p` by its image under `f`
(the `findIndex` / in-place overwrite step of `updateTemporalNodes`). -/
def modifyFirst {α : Type} (p : α → Bool) (f : α → α) : List α → List α
  | [] => []
  | a :: as => if p a then f a :: as else a :: modifyFirst p f as

/-- One change applied to a flagged node list.  The `Bool` paired with
each node freezes whether that node belonged to the filtered array that
`updateTemporalNodes` received: `findIndex` scans exactly the flagged
entries, and `Object.assign` mutates the matched node in place. -/
def applyChangeFlagged (acc : List (Node × Bool)) (c : Change) : List (Node × Bool) :=
  modifyFirst (fun nb => nb.2 && (nb.1.uid == c.uid)) (fun nb => (assignChange c nb.1, nb.2)) acc

/-- Fold a list of (already time-filtered) changes over a flagged node
list. -/
def runChanges (l : List (Node × Bool)) (cs : List Change) : List (Node × Bool) :=
  cs.foldl applyChangeFlagged l

/-- The updateTemporalNodes function of `network.js`: filter the changes
to the current time step, then apply each in order to the first node of
`nodesData` bearing its uid. -/
def updateTemporalNodes (nodesData : List Node) (changesData : List Change) (t : ℚ) : List Node :=
  (runChanges (nodesData.map (fun n => (n, true))) (changesData.filter (fun c => c.time == t))).map
    (fun nb => nb.1)

/-- Effect of `updateTemporalNodes` on the full node collection: `render`
passes the group-filtered array, whose entries alias the objects of
`allData.nodes`, so the in-place `Object.assign` writes are visible in
the full collection.  Membership in the filtered array is frozen before
any change is applied, which the flag records. -/
def updateTemporalNodesFull (fl : String) (nodes : List Node) (changesData : List Change)
    (t : ℚ) : List Node :=
  (runChanges (nodes.map (fun n => (n, keepNode fl n))) (changesData.filter (fun c => c.time == t))).map
    (fun nb => nb.1)

/-- The filterTemporalEdges function of `network.js`: keep the edges with
`past <= d.time <= future`; an edge without a timestamp (`undefined`)
fails both JS comparisons and is dropped. -/
def filterTemporalEdges (edgesData : List Link) (w : TimeWindow) : List Link :=
  edgesData.filter
    (fun l =>
      match l.time with
      | none => false
      | some ts => decide (w.past ≤ ts ∧ ts ≤ w.future))

/-- The `classed('edge_active', ...)` predicate of `renderTemporalEdges`
in `network.js`: an edge is stripped of the active class (faded) when its
timestamp lies in `[past, time)` or in `(aggregated, future]`, and keeps
it (solid) otherwise.  An edge without a timestamp fails both JS
comparisons and keeps the class. -/
def edgeActiveAt (w : TimeWindow) (t : Option ℚ) : Bool :=
  match t with
  | none => true
  | some ts =>
    if (w.past ≤ ts ∧ ts < w.time) ∨ (w.aggregated < ts ∧ ts ≤ w.future) then false else true

/-- The visualisation state closed over by `network.js`: the data owned by
the chart after `setupData`, and the `filter`, `time` and `temporal`
settings consulted by `render`. -/
structure VisState where
  nodes : List Node
  links : List Link
  changes : List Change
  countExtent : ℚ × ℚ
  radiusMinSize : ℚ
  radiusMaxSize : ℚ
  filterSetting : String
  time : TimeWindow
  temporal : Bool
deriving DecidableEq

/-- The scene produced by one `render()` call: the rendered node elements
with their target radius and fill colour, and the rendered edge elements
with their `edge_active` classification. -/
structure Scene where
  nodeElems : List (String × ℚ × String)
  edgeElems : List (String × Bool)
deriving DecidableEq

/-- The render function of `network.js` as a state transformer: group
filter, temporal patching of the filtered nodes (an in-place mutation,
returned here as the updated full collection), endpoint filtering of the
edges, temporal filtering and classification of the edges, and the
resulting scene of node and edge elements. -/
def renderStep (s : VisState) : VisState × Scene :=
  let filteredNodes := filterNodes s.filterSetting s.nodes
  let consideredNodes :=
    if s.temporal then updateTemporalNodes filteredNodes s.changes s.time.time
    else filteredNodes
  let newNodes :=
    if s.temporal then updateTemporalNodesFull s.filterSetting s.nodes s.changes s.time.time
    else s.nodes
  let filteredEdges := filterEdges s.links consideredNodes
  let consideredEdges :=
    if s.temporal then filterTemporalEdges filteredEdges s.time else filteredEdges
  let scene : Scene :=
    { nodeElems := consideredNodes.map
        (fun n => (n.uid, scaleRadius s.countExtent s.radiusMinSize s.radiusMaxSize n, getColor n))
      edgeElems := consideredEdges.map
        (fun l => (l.uid, if s.temporal then edgeActiveAt s.time l.time else true)) }
  ({ s with nodes := newNodes }, scene)

/-- The pixel width of the slider track in `slider.js`:
`600 - margin.left - margin.right`. -/
def sliderWidth : ℚ := 500

/-- The time-step-to-pixel scale `x` of `slider.js`:
`d3.scaleLinear().domain([0, timeSteps]).range([0, targetValue]).clamp(true)`. -/
def xScale (timeSteps v : ℚ) : ℚ :=
  max 0 (min sliderWidth (v * sliderWidth / timeSteps))

/-- The inverse of the clamped scale `x` (`x.invert`): pixels back to time
steps, clamped to the domain `[0, timeSteps]`. -/
def xInvert (timeSteps p : ℚ) : ℚ :=
  max 0 (min timeSteps (p * timeSteps / sliderWidth))

/-- The leading digit group that `parseInt` reads from the output of
`d3.format(",.0f")`: the formatter inserts a comma every three digits, and
`parseInt` stops at the first comma, so a rounded value of 1234 yields 1.
Magnitudes of 10^18 and beyond (where JS numbers have long lost integer
precision) are truncated by one further group. -/
def commaTrunc (n : ℕ) : ℕ :=
  if n < 1000 then n
  else if n < 1000000 then n / 1000
  else if n < 1000000000 then n / 1000000
  else if n < 1000000000000 then n / 1000000000
  else if n < 1000000000000000 then n / 1000000000000
  else if n < 1000000000000000000 then n / 1000000000000000
  else n / 1000000000000000000

/-- The `parseInt(formatInt(v))` idiom of `slider.js`: round to the
nearest integer, halves away from zero toward positive infinity (the
`toFixed` rule), then lose all but the leading comma group. -/
def formatParseInt (q : ℚ) : ℤ :=
  let r := round q
  if r < 0 then -(commaTrunc r.natAbs : ℤ) else (commaTrunc r.natAbs : ℤ)

/-- The update function of `slider.js` (the handler run for every
primary-handle position): `value` is the primary-handle time value (the
callers pass `x.invert` of a pixel position, hence a value already clamped
to `[0, timeSteps]`).  The past handle is placed at
`x(value) - x(pastDelta)` bounded below by 0; the future handle at
`x(value) + x(aggregationDelta) + x(futureDelta)` bounded above by the
track width; and the pushed TimeWindow reads `past` and `future` back
through `x.invert` of those handle positions while `time` and
`aggregated` are taken directly from `value` and
`value + aggregationDelta`, all through `parseInt(formatInt(.))`. -/
def sliderUpdate (timeSteps pastDelta aggregationDelta futureDelta value : ℚ) : TimeWindow :=
  let pastCx :=
    if xScale timeSteps pastDelta < xScale timeSteps value
    then xScale timeSteps value - xScale timeSteps pastDelta else 0
  let futureCx :=
    if xScale timeSteps value + xScale timeSteps aggregationDelta + xScale timeSteps futureDelta
        < sliderWidth
    then xScale timeSteps value + xScale timeSteps aggregationDelta + xScale timeSteps futureDelta
    else sliderWidth
  { past := (formatParseInt (xInvert timeSteps pastCx) : ℚ)
    time := (formatParseInt value : ℚ)
    aggregated := (formatParseInt (value + aggregationDelta) : ℚ)
    future := (formatParseInt (xInvert timeSteps futureCx) : ℚ) }

/-- Modelled from the spec: the `setTime(t)` contract stated in the
design document, used only to compare the implementation against the
spec's formulas: `past = max(0, t - pastDelta)`,
`aggregated = min(domainMax, t + aggregationDelta)`,
`future = min(domainMax, t + aggregationDelta + futureDelta)`. -/
def setTimeSpec (domainMax pastDelta aggregationDelta futureDelta t : ℚ) : TimeWindow :=
  { past := max 0 (t - pastDelta)
    time := t
    aggregated := min domainMax (t + aggregationDelta)
    future := min domainMax (t + aggregationDelta + futureDelta) }

/-- ASCII-lowercasing of a string, as `toLowerCase()` acts on the ASCII
names and queries the engine handles, viewed as a character list. -/
def lowerStr (s : String) : List Char :=
  s.data.map Char.toLower

/-- A character that is a metacharacter of JS regular expressions (the
search box compiles its query with `new RegExp(...)`). -/
def isRegexMeta (c : Char) : Bool :=
  c ∈ ['\\', '^', '$', '.', '|', '?', '*', '+', '(', ')', '[', ']', '\x7b', '\x7d']

/-- A token of the regular-expression fragment the search path exercises:
a literal character or the `.` wildcard. -/
inductive RegexTok where
  | dot : RegexTok
  | lit : Char → RegexTok
deriving DecidableEq

/-- Compilation of the lowercased query by `new RegExp(...)`, modelled on
the fragment without metacharacters other than `.`: the dot becomes the
any-character wildcard and every other character a literal. -/
def compileQuery (cs : List Char) : List RegexTok :=
  cs.map (fun c => if c = '.' then RegexTok.dot else RegexTok.lit c)

/-- Whether one regex token matches one character. -/
def tokMatch : RegexTok → Char → Bool
  | RegexTok.dot, _ => true
  | RegexTok.lit c, d => c == d

/-- Whether the token list matches a prefix of the character list. -/
def matchHere : List RegexTok → List Char → Bool
  | [], _ => true
  | _ :: _, [] => false
  | t :: ts, c :: cs => tokMatch t c && matchHere ts cs

/-- The `String.prototype.search` test: the pattern matches at some
position of the subject (`search(...) >= 0`). -/
def regexFound (ts : List RegexTok) : List Char → Bool
  | [] => matchHere ts []
  | c :: cs => matchHere ts (c :: cs) || regexFound ts cs

/-- Plain substring containment on character lists: the reading of
"case-insensitive substring match" used by the specification. -/
def substrContains (p : List Char) : List Char → Bool
  | [] => p.isEmpty
  | c :: cs => p.isPrefixOf (c :: cs) || substrContains p cs

/-- The per-node body of `chart.updateSearch` in `network.js`: the
lowercased display name is searched for the query compiled as a regular
expression from its lowercased text; on a match (with a non-empty query)
the node is flagged `searched` and filled with the marker colour, and
otherwise the flag is cleared and the fill restored to the node's own
colour.  Returns the updated node and the fill it was given. -/
def updateSearchNode (searchTerm : String) (n : Node) : Node × String :=
  let found := regexFound (compileQuery (lowerStr searchTerm)) (lowerStr (getName n))
  if searchTerm.length > 0 && found
  then ({ n with searched := true }, "#F38630")
  else ({ n with searched := false }, getColor n)

/-- The chart.updateSearch function of `network.js`, applied to every
bound node. -/
def updateSearch (searchTerm : String) (nodes : List Node) : List (Node × String) :=
  nodes.map (updateSearchNode searchTerm)


/-- Sequential application of a list of changes to one node: the effect of
the per-change `Object.assign` loop of `updateTemporalNodes` on the node
all of them target. -/
def applyChangesTo (n : Node) (cs : List Change) : Node :=
  cs.foldl (fun m c => assignChange c m) n

theorem round_rat_mono {x y : ℚ} (h : x ≤ y) : round x ≤ round y := by
  rw [round_eq, round_eq]
  exact Int.floor_mono (by linarith)

theorem formatParseInt_eq_round {q : ℚ} (h0 : 0 ≤ q) (h9 : q ≤ 999) :
    formatParseInt q = round q := by
  have hr0 : (0:ℤ) ≤ round q := by simpa using round_rat_mono h0
  have hr9 : round q ≤ 999 := by
    have h1 := round_rat_mono h9
    have h2 : round ((999:ℤ) : ℚ) = (999 : ℤ) := round_intCast (α := ℚ) 999
    rw [show ((999:ℤ):ℚ) = (999:ℚ) by norm_num] at h2
    omega
  unfold formatParseInt commaTrunc
  have hna : (round q).natAbs < 1000 := by omega
  simp only [if_neg (by omega : ¬ round q < 0), if_pos hna]
  omega

/-- C9: in temporal mode an edge with no timestamp attribute is excluded
by the temporal edge filter for every time window (the JS comparisons
`undefined >= past` and `undefined <= future` are both false). -/
theorem untimed_edges_excluded (edgesData : List Link) (w : TimeWindow) (l : Link)
    (h : l.time = none) : l ∉ filterTemporalEdges edgesData w := by
  intro hl
  simp only [filterTemporalEdges, List.mem_filter, h] at hl
  exact absurd hl.2 (by simp)

/-- C7: the temporal edge filter is monotonic in the future marker: for
windows with equal past and future ordered by inclusion, every edge kept
under the narrower window is kept under the wider one. -/
theorem temporal_filter_monotone_future (edgesData : List Link) (w w' : TimeWindow)
    (hpast : w.past = w'.past) (hfut : w.future ≤ w'.future) :
    ∀ l ∈ filterTemporalEdges edgesData w, l ∈ filterTemporalEdges edgesData w' := by
  intro l hl
  cases ht : l.time with
  | none => simp [filterTemporalEdges, List.mem_filter, ht] at hl
  | some ts =>
    simp only [filterTemporalEdges, List.mem_filter, ht, decide_eq_true_eq] at hl ⊢
    exact ⟨hl.1, hpast ▸ hl.2.1, le_trans hl.2.2 hfut⟩

/-- C9 witness: a concrete untimed edge is excluded under a concrete
window. -/
theorem untimed_edges_excluded_witness :
    (⟨"a", "b", "a_b", none⟩ : Link).time = none ∧
    (⟨"a", "b", "a_b", none⟩ : Link) ∉
      filterTemporalEdges [⟨"a", "b", "a_b", none⟩] ⟨0, 0, 0, 5⟩ :=
  ⟨rfl, untimed_edges_excluded _ _ _ rfl⟩

/-- C7 witness: a concrete edge kept at future = 1 is still kept after
widening future to 2. -/
theorem temporal_filter_monotone_future_witness :
    (⟨0, 0, 0, 1⟩ : TimeWindow).past = (⟨0, 0, 0, 2⟩ : TimeWindow).past ∧
    (⟨0, 0, 0, 1⟩ : TimeWindow).future ≤ (⟨0, 0, 0, 2⟩ : TimeWindow).future ∧
    (⟨"a", "b", "a_b", some 1⟩ : Link) ∈
      filterTemporalEdges [⟨"a", "b", "a_b", some 1⟩] ⟨0, 0, 0, 1⟩ ∧
    (⟨"a", "b", "a_b", some 1⟩ : Link) ∈
      filterTemporalEdges [⟨"a", "b", "a_b", some 1⟩] ⟨0, 0, 0, 2⟩ :=
  ⟨rfl, by decide, by decide,
    temporal_filter_monotone_future _ _ _ rfl (by decide) _ (by decide)⟩

/-- C4: with nodes a, b, c and edges a-b at time 1 and b-c at time 2,
rendering under the window (past 0, time 1, aggregated 1, future 2)
yields exactly the edges a_b classified active and b_c faded; after
advancing the window by the same deltas to (1, 2, 2, 3) the rendered
edges are a_b faded context and b_c active. -/
theorem temporal_scenario_window_shift :
    (renderStep ⟨[⟨"a", NodeAttrs.empty, false⟩, ⟨"b", NodeAttrs.empty, false⟩,
          ⟨"c", NodeAttrs.empty, false⟩],
        [⟨"a", "b", "a_b", some 1⟩, ⟨"b", "c", "b_c", some 2⟩], [], (6, 6), 4, 16,
        "all", ⟨0, 1, 1, 2⟩, true⟩).2.edgeElems = [("a_b", true), ("b_c", false)] ∧
    (renderStep ⟨[⟨"a", NodeAttrs.empty, false⟩, ⟨"b", NodeAttrs.empty, false⟩,
          ⟨"c", NodeAttrs.empty, false⟩],
        [⟨"a", "b", "a_b", some 1⟩, ⟨"b", "c", "b_c", some 2⟩], [], (6, 6), 4, 16,
        "all", ⟨1, 2, 2, 3⟩, true⟩).2.edgeElems = [("a_b", false), ("b_c", true)] := by
  decide

/-- C1 counterexample: under the window (past 0, time 1, aggregated 1,
future 2), the edge with timestamp 0 lies in the claimed active interval
`[past, time)`, yet `renderTemporalEdges` strips its `edge_active` class
(classifies it faded), refuting the claim that such edges are solid. -/
theorem edge_lookout_not_active :
    edgeActiveAt ⟨0, 1, 1, 2⟩ (some 0) = false := by decide

/-- C1 (amended): the classification is the reverse of the claim: a
rendered edge (timestamp within `[past, future]`) loses the
`edge_active` class exactly when its timestamp lies in
`[past, time) ∪ (aggregated, future]`, and keeps it (solid) exactly when
its timestamp lies in `[time, aggregated]`. -/
theorem edge_classification_amended (w : TimeWindow) (ts : ℚ)
    (h1 : w.past ≤ ts) (h2 : ts ≤ w.future) :
    (edgeActiveAt w (some ts) = false ↔
      ((w.past ≤ ts ∧ ts < w.time) ∨ (w.aggregated < ts ∧ ts ≤ w.future))) ∧
    (edgeActiveAt w (some ts) = true ↔ (w.time ≤ ts ∧ ts ≤ w.aggregated)) := by
  by_cases hc : (w.past ≤ ts ∧ ts < w.time) ∨ (w.aggregated < ts ∧ ts ≤ w.future)
  · refine ⟨by simp [edgeActiveAt, hc], ?_⟩
    simp only [edgeActiveAt, if_pos hc]
    refine ⟨fun hfalse => absurd hfalse (by simp), ?_⟩
    rintro ⟨hta, htb⟩
    rcases hc with ⟨-, hlt⟩ | ⟨hgt, -⟩
    · exact absurd hta (by linarith)
    · exact absurd htb (by linarith)
  · refine ⟨by simp [edgeActiveAt, hc], ?_⟩
    simp only [edgeActiveAt, if_neg hc]
    push_neg at hc
    have hta : w.time ≤ ts := hc.1 h1
    have htb : ts ≤ w.aggregated := not_lt.mp (fun hgt => absurd h2 (not_le.mpr (hc.2 hgt)))
    simp [hta, htb]

/-- C1 witness: the amended classification evaluated for timestamp 1
under the window (0, 1, 1, 2). -/
theorem edge_classification_amended_witness :
    ((⟨0, 1, 1, 2⟩ : TimeWindow).past ≤ (1 : ℚ) ∧ (1 : ℚ) ≤ (⟨0, 1, 1, 2⟩ : TimeWindow).future) ∧
    ((edgeActiveAt ⟨0, 1, 1, 2⟩ (some 1) = false ↔
      (((⟨0, 1, 1, 2⟩ : TimeWindow).past ≤ (1:ℚ) ∧ (1:ℚ) < (⟨0, 1, 1, 2⟩ : TimeWindow).time) ∨
        ((⟨0, 1, 1, 2⟩ : TimeWindow).aggregated < (1:ℚ) ∧ (1:ℚ) ≤ (⟨0, 1, 1, 2⟩ : TimeWindow).future))) ∧
      (edgeActiveAt ⟨0, 1, 1, 2⟩ (some 1) = true ↔
        ((⟨0, 1, 1, 2⟩ : TimeWindow).time ≤ (1:ℚ) ∧ (1:ℚ) ≤ (⟨0, 1, 1, 2⟩ : TimeWindow).aggregated))) :=
  ⟨⟨by decide, by decide⟩, edge_classification_amended ⟨0, 1, 1, 2⟩ 1 (by decide) (by decide)⟩

theorem xScale_in_domain {T v : ℚ} (hT : 0 < T) (h0 : 0 ≤ v) (hvT : v ≤ T) :
    xScale T v = v * 500 / T := by
  have hle : v * 500 / T ≤ 500 := by
    rw [div_le_iff₀ hT]; nlinarith
  have hge : (0:ℚ) ≤ v * 500 / T := by positivity
  unfold xScale sliderWidth
  rw [min_eq_right hle, max_eq_right hge]

theorem xInvert_xScale {T v : ℚ} (hT : 0 < T) (h0 : 0 ≤ v) (hvT : v ≤ T) :
    xInvert T (v * 500 / T) = v := by
  have hT' : T ≠ 0 := ne_of_gt hT
  have harg : v * 500 / T * T / 500 = v := by field_simp
  unfold xInvert sliderWidth
  rw [harg, min_eq_right hvT, max_eq_right h0]

theorem xInvert_zero {T : ℚ} (hT : 0 < T) : xInvert T 0 = 0 := by
  unfold xInvert sliderWidth
  norm_num [min_eq_right hT.le]

theorem xInvert_width {T : ℚ} (hT : 0 < T) : xInvert T 500 = T := by
  have hT' : T ≠ 0 := ne_of_gt hT
  have harg : (500:ℚ) * T / 500 = T := by field_simp
  unfold xInvert sliderWidth
  rw [harg, min_self, max_eq_right hT.le]

theorem sliderUpdate_closed (T p a f v : ℚ) (hT : 0 < T) (hT9 : T ≤ 999)
    (hv0 : 0 ≤ v) (hvT : v ≤ T) (hp0 : 0 ≤ p) (hpT : p ≤ T)
    (ha0 : 0 ≤ a) (haT : a ≤ T) (hf0 : 0 ≤ f) (hfT : f ≤ T) (hva : v + a ≤ 999) :
    sliderUpdate T p a f v =
      ⟨((round (max 0 (v - p)) : ℤ) : ℚ), ((round v : ℤ) : ℚ),
        ((round (v + a) : ℤ) : ℚ), ((round (min T (v + a + f)) : ℤ) : ℚ)⟩ := by
  have hxv := xScale_in_domain hT hv0 hvT
  have hxp := xScale_in_domain hT hp0 hpT
  have hxa := xScale_in_domain hT ha0 haT
  have hxf := xScale_in_domain hT hf0 hfT
  have hpastArg :
      xInvert T (if xScale T p < xScale T v then xScale T v - xScale T p else 0) =
        max 0 (v - p) := by
    by_cases hpv : p < v
    · have hcond : xScale T p < xScale T v := by
        rw [hxp, hxv]
        have := hT
        rw [div_lt_div_iff₀ hT hT]
        nlinarith
      rw [if_pos hcond, hxv, hxp]
      have hdiff : v * 500 / T - p * 500 / T = (v - p) * 500 / T := by ring
      rw [hdiff, xInvert_xScale hT (by linarith) (by linarith),
        max_eq_right (by linarith : (0:ℚ) ≤ v - p)]
    · have hvp : v ≤ p := not_lt.mp hpv
      have hcond : ¬ xScale T p < xScale T v := by
        rw [hxp, hxv, not_lt, div_le_div_iff₀ hT hT]
        nlinarith
      rw [if_neg hcond, xInvert_zero hT,
        max_eq_left (by linarith : v - p ≤ 0)]
  have hfutArg :
      xInvert T
        (if xScale T v + xScale T a + xScale T f < sliderWidth
          then xScale T v + xScale T a + xScale T f else sliderWidth) =
        min T (v + a + f) := by
    have hsumEq : xScale T v + xScale T a + xScale T f = (v + a + f) * 500 / T := by
      rw [hxv, hxa, hxf]; ring
    by_cases hsum : v + a + f < T
    · have hcond : xScale T v + xScale T a + xScale T f < sliderWidth := by
        rw [hsumEq]
        unfold sliderWidth
        rw [div_lt_iff₀ hT]
        nlinarith
      rw [if_pos hcond, hsumEq,
        xInvert_xScale hT (by linarith) hsum.le, min_eq_right hsum.le]
    · have hTs : T ≤ v + a + f := not_lt.mp hsum
      have hcond : ¬ xScale T v + xScale T a + xScale T f < sliderWidth := by
        rw [hsumEq]
        unfold sliderWidth
        rw [not_lt, le_div_iff₀ hT]
        nlinarith
      rw [if_neg hcond]
      unfold sliderWidth
      rw [xInvert_width hT, min_eq_left hTs]
  simp only [sliderUpdate]
  rw [hpastArg, hfutArg]
  have h1 : formatParseInt (max 0 (v - p)) = round (max 0 (v - p)) :=
    formatParseInt_eq_round (le_max_left _ _)
      (max_le (by linarith) (by linarith))
  have h2 : formatParseInt v = round v := formatParseInt_eq_round hv0 (by linarith)
  have h3 : formatParseInt (v + a) = round (v + a) := formatParseInt_eq_round (by linarith) hva
  have h4 : formatParseInt (min T (v + a + f)) = round (min T (v + a + f)) :=
    formatParseInt_eq_round (le_min hT.le (by linarith)) (min_le_of_left_le (by linarith))
  rw [h1, h2, h3, h4]

/-- C2 counterexample: at domain maximum 10 with aggregation delta 5 and
the primary handle at 10, the pushed window has aggregated = 15, not the
spec formula min(domainMax, t + aggregationDelta) = 10: the code never
clamps the aggregated marker. -/
theorem setTime_aggregated_unclamped :
    (sliderUpdate 10 0 5 0 10).aggregated = 15 ∧
    (setTimeSpec 10 0 5 0 10).aggregated = 10 := by decide

/-- C2 (amended): for every in-domain handle value and deltas (deltas
are always at most the domain width, and magnitudes stay below the
comma-grouping threshold of the label format), the pushed TimeWindow is
past = round(max(0, t - pastDelta)), time = round(t),
aggregated = round(t + aggregationDelta) with no clamping, and
future = round(min(domainMax, t + aggregationDelta + futureDelta)). -/
theorem setTime_window_formulas (T p a f v : ℚ) (hT : 0 < T) (hT9 : T ≤ 999)
    (hv0 : 0 ≤ v) (hvT : v ≤ T) (hp0 : 0 ≤ p) (hpT : p ≤ T)
    (ha0 : 0 ≤ a) (haT : a ≤ T) (hf0 : 0 ≤ f) (hfT : f ≤ T) (hva : v + a ≤ 999) :
    sliderUpdate T p a f v =
      ⟨((round (max 0 (v - p)) : ℤ) : ℚ), ((round v : ℤ) : ℚ),
        ((round (v + a) : ℤ) : ℚ), ((round (min T (v + a + f)) : ℤ) : ℚ)⟩ :=
  sliderUpdate_closed T p a f v hT hT9 hv0 hvT hp0 hpT ha0 haT hf0 hfT hva

/-- C2 witness: the amended formulas evaluated at domain 10, pastDelta 1,
aggregationDelta 0, futureDelta 1, handle value 2. -/
theorem setTime_window_formulas_witness :
    ((0:ℚ) < 10 ∧ (10:ℚ) ≤ 999 ∧ (0:ℚ) ≤ 2 ∧ (2:ℚ) ≤ 10 ∧ (0:ℚ) ≤ 1 ∧ (1:ℚ) ≤ 10 ∧
      (0:ℚ) ≤ 0 ∧ (0:ℚ) ≤ 10 ∧ (0:ℚ) ≤ 1 ∧ (1:ℚ) ≤ 10 ∧ (2:ℚ) + 0 ≤ 999) ∧
    sliderUpdate 10 1 0 1 2 =
      ⟨((round (max 0 ((2:ℚ) - 1)) : ℤ) : ℚ), ((round (2:ℚ) : ℤ) : ℚ),
        ((round ((2:ℚ) + 0) : ℤ) : ℚ), ((round (min (10:ℚ) (2 + 0 + 1)) : ℤ) : ℚ)⟩ :=
  ⟨by norm_num,
    setTime_window_formulas 10 1 0 1 2 (by norm_num) (by norm_num) (by norm_num)
      (by norm_num) (by norm_num) (by norm_num) (by norm_num) (by norm_num)
      (by norm_num) (by norm_num) (by norm_num)⟩

/-- C3 counterexample: at domain maximum 10 with aggregation delta 5 and
the primary handle at 10 (deltas all nonnegative, handle within the
domain), the pushed window has aggregated = 15 > future = 10, violating
the claimed ordering. -/
theorem setTime_order_violated :
    ¬ ((sliderUpdate 10 0 5 0 10).aggregated ≤ (sliderUpdate 10 0 5 0 10).future) := by
  decide

/-- C3 (amended): the ordering past <= time <= aggregated <= future
holds for all nonnegative in-domain deltas and handle positions provided
the aggregation window fits inside the domain
(t + aggregationDelta <= domainMax). -/
theorem setTime_window_ordered (T p a f v : ℚ) (hT : 0 < T) (hT9 : T ≤ 999)
    (hv0 : 0 ≤ v) (hvT : v ≤ T) (hp0 : 0 ≤ p) (hpT : p ≤ T)
    (ha0 : 0 ≤ a) (haT : a ≤ T) (hf0 : 0 ≤ f) (hfT : f ≤ T) (hfit : v + a ≤ T) :
    (sliderUpdate T p a f v).past ≤ (sliderUpdate T p a f v).time ∧
    (sliderUpdate T p a f v).time ≤ (sliderUpdate T p a f v).aggregated ∧
    (sliderUpdate T p a f v).aggregated ≤ (sliderUpdate T p a f v).future := by
  have hva : v + a ≤ 999 := le_trans hfit hT9
  rw [sliderUpdate_closed T p a f v hT hT9 hv0 hvT hp0 hpT ha0 haT hf0 hfT hva]
  dsimp only
  refine ⟨?_, ?_, ?_⟩
  · exact_mod_cast round_rat_mono (max_le hv0 (by linarith))
  · exact_mod_cast round_rat_mono (by linarith)
  · exact_mod_cast round_rat_mono (le_min hfit (by linarith))

/-- C3 witness: the ordering evaluated at domain 10, pastDelta 1,
aggregationDelta 0, futureDelta 1, handle value 2. -/
theorem setTime_window_ordered_witness :
    ((0:ℚ) < 10 ∧ (10:ℚ) ≤ 999 ∧ (0:ℚ) ≤ 2 ∧ (2:ℚ) ≤ 10 ∧ (0:ℚ) ≤ 1 ∧ (1:ℚ) ≤ 10 ∧
      (0:ℚ) ≤ 0 ∧ (0:ℚ) ≤ 10 ∧ (0:ℚ) ≤ 1 ∧ (1:ℚ) ≤ 10 ∧ (2:ℚ) + 0 ≤ 10) ∧
    ((sliderUpdate 10 1 0 1 2).past ≤ (sliderUpdate 10 1 0 1 2).time ∧
      (sliderUpdate 10 1 0 1 2).time ≤ (sliderUpdate 10 1 0 1 2).aggregated ∧
      (sliderUpdate 10 1 0 1 2).aggregated ≤ (sliderUpdate 10 1 0 1 2).future) :=
  ⟨by norm_num,
    setTime_window_ordered 10 1 0 1 2 (by norm_num) (by norm_num) (by norm_num)
      (by norm_num) (by norm_num) (by norm_num) (by norm_num) (by norm_num)
      (by norm_num) (by norm_num) (by norm_num)⟩

/-- C5 counterexample: a payload whose single link references the
unknown node id b makes `setupData` fail (the JS code dereferences
`.uid` of an `undefined` lookup and throws), rather than silently
excluding the edge. -/
theorem load_unknown_id_errors :
    setupData ⟨[⟨"a", NodeAttrs.empty, false⟩], [⟨"a", "b", none⟩], []⟩ = none := by
  decide

theorem lookupNode_mem {nodes : List Node} {u : String} {n : Node}
    (h : lookupNode nodes u = some n) : n ∈ nodes :=
  List.mem_reverse.mp (List.mem_of_find?_eq_some h)

theorem resolveAll_mem {nodes : List Node} :
    ∀ {ls : List RawLink} {rs : List Link}, resolveAll nodes ls = some rs →
      ∀ r ∈ rs, ∃ l ∈ ls, resolveLink nodes l = some r := by
  intro ls
  induction ls with
  | nil =>
    intro rs h r hr
    simp only [resolveAll, Option.some.injEq] at h
    subst h
    simp at hr
  | cons l ls ih =>
    intro rs h r hr
    simp only [resolveAll] at h
    cases hre : resolveLink nodes l with
    | none => rw [hre] at h; exact absurd h (by simp)
    | some r0 =>
      rw [hre] at h
      cases hra : resolveAll nodes ls with
      | none => rw [hra] at h; exact absurd h (by simp)
      | some rs0 =>
        rw [hra] at h
        simp only [Option.some.injEq] at h
        subst h
        rcases List.mem_cons.mp hr with hr0 | hrs
        · exact ⟨l, List.mem_cons_self _ _, hr0 ▸ hre⟩
        · obtain ⟨l', hl', hres'⟩ := ih hra r hrs
          exact ⟨l', List.mem_cons_of_mem _ hl', hres'⟩

/-- C5 (amended): when `setupData` succeeds, every resolved link has
both endpoint uids present among the loaded nodes (no dangling
endpoint); an edge referencing an unknown node id instead makes the load
itself fail, as the counterexample shows. -/
theorem load_resolves_endpoints (raw : RawData) (d : NetData)
    (h : setupData raw = some d) :
    ∀ l ∈ d.links,
      (∃ n ∈ d.nodes, n.uid = l.source) ∧ (∃ n ∈ d.nodes, n.uid = l.target) := by
  intro l hl
  simp only [setupData] at h
  cases hres : resolveAll
      (raw.nodes.map (fun n =>
        { n with attrs := { n.attrs with
            radius := some (scaleRadius (countExtentOf raw.nodes) 4 16 n) } }))
      raw.links with
  | none => rw [hres] at h; exact absurd h (by simp)
  | some links =>
    rw [hres] at h
    simp only [Option.some.injEq] at h
    subst h
    obtain ⟨rl, hrl, hresolve⟩ := resolveAll_mem hres l hl
    unfold resolveLink at hresolve
    cases hs : lookupNode _ rl.source with
    | none => rw [hs] at hresolve; exact absurd hresolve (by simp)
    | some sN =>
      cases ht : lookupNode _ rl.target with
      | none => rw [hs, ht] at hresolve; exact absurd hresolve (by simp)
      | some tN =>
        rw [hs, ht] at hresolve
        simp only [Option.some.injEq] at hresolve
        subst hresolve
        exact ⟨⟨sN, lookupNode_mem hs, rfl⟩, ⟨tN, lookupNode_mem ht, rfl⟩⟩

/-- C5 witness: a concrete successful load whose single link resolves
both endpoints. -/
theorem load_resolves_endpoints_witness :
    setupData ⟨[⟨"a", NodeAttrs.empty, false⟩, ⟨"b", NodeAttrs.empty, false⟩],
        [⟨"a", "b", some 1⟩], []⟩ =
      some ⟨[⟨"a", ⟨none, none, none, none, none, some 10, none⟩, false⟩,
          ⟨"b", ⟨none, none, none, none, none, some 10, none⟩, false⟩],
        [⟨"a", "b", "a_b", some 1⟩], [], (6, 6)⟩ ∧
    (⟨"a", "b", "a_b", some 1⟩ : Link) ∈
      ([⟨"a", "b", "a_b", some 1⟩] : List Link) ∧
    ((∃ n ∈ [⟨"a", ⟨none, none, none, none, none, some 10, none⟩, false⟩,
          (⟨"b", ⟨none, none, none, none, none, some 10, none⟩, false⟩ : Node)],
        n.uid = (⟨"a", "b", "a_b", some 1⟩ : Link).source) ∧
      (∃ n ∈ [⟨"a", ⟨none, none, none, none, none, some 10, none⟩, false⟩,
          (⟨"b", ⟨none, none, none, none, none, some 10, none⟩, false⟩ : Node)],
        n.uid = (⟨"a", "b", "a_b", some 1⟩ : Link).target)) :=
  ⟨by decide, by decide,
    load_resolves_endpoints
      ⟨[⟨"a", NodeAttrs.empty, false⟩, ⟨"b", NodeAttrs.empty, false⟩],
        [⟨"a", "b", some 1⟩], []⟩
      ⟨[⟨"a", ⟨none, none, none, none, none, some 10, none⟩, false⟩,
          ⟨"b", ⟨none, none, none, none, none, some 10, none⟩, false⟩],
        [⟨"a", "b", "a_b", some 1⟩], [], (6, 6)⟩
      (by decide) ⟨"a", "b", "a_b", some 1⟩ (by decide)⟩

theorem matchHere_lit (p : List Char) :
    ∀ s, matchHere (p.map RegexTok.lit) s = p.isPrefixOf s := by
  induction p with
  | nil => intro s; simp [matchHere, List.isPrefixOf]
  | cons c p ih =>
    intro s
    cases s with
    | nil => simp [matchHere, List.isPrefixOf]
    | cons d s => simp [matchHere, List.isPrefixOf, tokMatch, ih]

theorem regexFound_lit (p : List Char) :
    ∀ s, regexFound (p.map RegexTok.lit) s = substrContains p s := by
  intro s
  induction s with
  | nil =>
    cases p with
    | nil => simp [regexFound, substrContains, matchHere, List.isEmpty]
    | cons c p => simp [regexFound, substrContains, matchHere, List.isEmpty]
  | cons c s ih => simp [regexFound, substrContains, matchHere_lit, ih]

theorem compileQuery_no_meta (cs : List Char) (h : ∀ c ∈ cs, isRegexMeta c = false) :
    compileQuery cs = cs.map RegexTok.lit := by
  unfold compileQuery
  apply List.map_congr_left
  intro c hc
  have hdot : ¬ c = '.' := by
    intro hcd
    have := h c hc
    rw [hcd] at this
    simp [isRegexMeta] at this
  rw [if_neg hdot]

/-- C8 counterexample: the query consisting of a lone dot marks the node
named ab as searched (the query is compiled as a regular expression, and
`.` matches any character), although ab does not contain the dot as a
substring, refuting the claimed substring criterion. -/
theorem search_dot_matches_nonsubstring :
    (updateSearchNode "." ⟨"ab", NodeAttrs.empty, false⟩).1.searched = true ∧
    substrContains (lowerStr ".") (lowerStr (getName ⟨"ab", NodeAttrs.empty, false⟩)) = false := by
  decide

/-- C8 (amended): for queries without regex metacharacters the claim
holds: a node is flagged searched (with the marker fill) iff the query
is non-empty and its lowercased text occurs as a substring of the
lowercased display name (label, falling back to uid); every other node
has the flag cleared and its fill restored to its own colour. -/
theorem search_substring_amended (q : String) (n : Node)
    (hq : ∀ c ∈ lowerStr q, isRegexMeta c = false) :
    ((updateSearchNode q n).1.searched = true ↔
      (0 < q.length ∧ substrContains (lowerStr q) (lowerStr (getName n)) = true)) ∧
    ((updateSearchNode q n).1.searched = false →
      (updateSearchNode q n).2 = getColor n ∧
        (updateSearchNode q n).1 = { n with searched := false }) := by
  have hfound : regexFound (compileQuery (lowerStr q)) (lowerStr (getName n)) =
      substrContains (lowerStr q) (lowerStr (getName n)) := by
    rw [compileQuery_no_meta _ hq, regexFound_lit]
  simp only [updateSearchNode, hfound]
  by_cases hlen : 0 < q.length
  · by_cases hsub : substrContains (lowerStr q) (lowerStr (getName n)) = true
    · simp [hlen, hsub]
    · simp [hlen, hsub]
  · simp [hlen]

/-- C8 witness: the amended search criterion evaluated for the query b
against the node ab. -/
theorem search_substring_amended_witness :
    (∀ c ∈ lowerStr "b", isRegexMeta c = false) ∧
    (((updateSearchNode "b" ⟨"ab", NodeAttrs.empty, false⟩).1.searched = true ↔
        (0 < "b".length ∧
          substrContains (lowerStr "b")
            (lowerStr (getName ⟨"ab", NodeAttrs.empty, false⟩)) = true)) ∧
      ((updateSearchNode "b" ⟨"ab", NodeAttrs.empty, false⟩).1.searched = false →
        (updateSearchNode "b" ⟨"ab", NodeAttrs.empty, false⟩).2 =
            getColor ⟨"ab", NodeAttrs.empty, false⟩ ∧
          (updateSearchNode "b" ⟨"ab", NodeAttrs.empty, false⟩).1 =
            { (⟨"ab", NodeAttrs.empty, false⟩ : Node) with searched := false })) :=
  ⟨by decide, search_substring_amended "b" ⟨"ab", NodeAttrs.empty, false⟩ (by decide)⟩

theorem assignChange_uid (c : Change) (n : Node) : (assignChange c n).uid = n.uid := rfl

theorem find?_cons_true {α : Type} (p : α → Bool) (a : α) (l : List α) (h : p a = true) :
    (a :: l).find? p = some a := by
  simp [List.find?, h]

theorem find?_cons_false {α : Type} (p : α → Bool) (a : α) (l : List α) (h : p a = false) :
    (a :: l).find? p = l.find? p := by
  simp [List.find?, h]

theorem map_fst_retag (l : List Node) : (l.map (fun n => (n, true))).map Prod.fst = l := by
  induction l with
  | nil => rfl
  | cons n l ih => simp only [List.map_cons, ih]

theorem find_map_applyChange {u : String} {c : Change} (hne : ¬ c.uid = u) :
    ∀ (l : List (Node × Bool)),
      ((applyChangeFlagged l c).map Prod.fst).find? (fun n => n.uid == u) =
        (l.map Prod.fst).find? (fun n => n.uid == u) := by
  intro l
  induction l with
  | nil => rfl
  | cons nb l ih =>
    by_cases hp : (nb.2 && (nb.1.uid == c.uid)) = true
    · have huid : nb.1.uid = c.uid := eq_of_beq (Bool.and_eq_true .. |>.mp hp).2
      have hnu : (nb.1.uid == u) = false := by
        rw [huid]
        exact beq_eq_false_iff_ne.mpr hne
      simp only [applyChangeFlagged, modifyFirst, if_pos hp, List.map_cons]
      rw [find?_cons_false (fun (n : Node) => n.uid == u) _ _ (by exact hnu),
        find?_cons_false (fun (n : Node) => n.uid == u) _ _ hnu]
    · simp only [applyChangeFlagged, modifyFirst, if_neg hp, List.map_cons]
      cases hu : (nb.1.uid == u) with
      | true =>
        rw [find?_cons_true (fun (n : Node) => n.uid == u) _ _ hu,
          find?_cons_true (fun (n : Node) => n.uid == u) _ _ hu]
      | false =>
        rw [find?_cons_false (fun (n : Node) => n.uid == u) _ _ hu,
          find?_cons_false (fun (n : Node) => n.uid == u) _ _ hu]
        exact ih

theorem find_map_runChanges {u : String} :
    ∀ (cs : List Change), (∀ c ∈ cs, ¬ c.uid = u) → ∀ (l : List (Node × Bool)),
      ((runChanges l cs).map Prod.fst).find? (fun n => n.uid == u) =
        (l.map Prod.fst).find? (fun n => n.uid == u) := by
  intro cs
  induction cs with
  | nil => intro _ l; rfl
  | cons c cs ih =>
    intro h l
    rw [show runChanges l (c :: cs) = runChanges (applyChangeFlagged l c) cs from rfl]
    rw [ih (fun c' hc' => h c' (List.mem_cons_of_mem _ hc')) _]
    exact find_map_applyChange (h c (List.mem_cons_self _ _)) l

/-- C10: scheduled changes mutate the stored nodes in place: after the
changes of time t1 have been applied, re-rendering at any other time t2
that schedules no change for a given node leaves that node exactly as
patched - its pre-change attribute values are never restored. -/
theorem temporal_change_not_reverted (nodes : List Node) (changes : List Change)
    (t1 t2 : ℚ) (u : String)
    (h : ∀ c ∈ changes, c.uid = u → ¬ c.time = t2) :
    (updateTemporalNodes (updateTemporalNodes nodes changes t1) changes t2).find?
        (fun n => n.uid == u) =
      (updateTemporalNodes nodes changes t1).find? (fun n => n.uid == u) := by
  have hfiltered : ∀ c ∈ changes.filter (fun c => c.time == t2), ¬ c.uid = u := by
    intro c hc hcu
    have hmem := List.mem_filter.mp hc
    exact h c hmem.1 hcu (eq_of_beq hmem.2)
  have key : ∀ (l : List Node),
      (updateTemporalNodes l changes t2).find? (fun n => n.uid == u) =
        l.find? (fun n => n.uid == u) := by
    intro l
    unfold updateTemporalNodes
    rw [find_map_runChanges _ hfiltered _, map_fst_retag]
  exact key _

/-- C10 witness: a node patched at time 1 is untouched by a subsequent
render at the earlier time 0. -/
theorem temporal_change_not_reverted_witness :
    (∀ c ∈ [(⟨"a", 1, { NodeAttrs.empty with color := some "red" }⟩ : Change)],
        c.uid = "a" → ¬ c.time = 0) ∧
    (updateTemporalNodes
        (updateTemporalNodes [⟨"a", NodeAttrs.empty, false⟩]
          [⟨"a", 1, { NodeAttrs.empty with color := some "red" }⟩] 1)
        [⟨"a", 1, { NodeAttrs.empty with color := some "red" }⟩] 0).find?
        (fun n => n.uid == "a") =
      (updateTemporalNodes [⟨"a", NodeAttrs.empty, false⟩]
        [⟨"a", 1, { NodeAttrs.empty with color := some "red" }⟩] 1).find?
        (fun n => n.uid == "a") :=
  ⟨by decide,
    temporal_change_not_reverted [⟨"a", NodeAttrs.empty, false⟩]
      [⟨"a", 1, { NodeAttrs.empty with color := some "red" }⟩] 1 0 "a" (by decide)⟩


theorem oOr_assoc {α : Type} (x y z : Option α) : oOr x (oOr y z) = oOr (oOr x y) z := by
  cases x <;> rfl

theorem oOr_none {α : Type} (x : Option α) : oOr x none = x := by
  cases x <;> rfl

theorem oOr_self {α : Type} (x : Option α) : oOr x x = x := by
  cases x <;> rfl

theorem overrideAttrs_assoc (p q a : NodeAttrs) :
    overrideAttrs p (overrideAttrs q a) = overrideAttrs (overrideAttrs p q) a := by
  simp [overrideAttrs, oOr_assoc]

theorem overrideAttrs_empty_left (a : NodeAttrs) : overrideAttrs NodeAttrs.empty a = a := by
  simp [overrideAttrs, NodeAttrs.empty, oOr]

theorem overrideAttrs_empty_right (p : NodeAttrs) : overrideAttrs p NodeAttrs.empty = p := by
  simp [overrideAttrs, NodeAttrs.empty, oOr_none]

theorem overrideAttrs_self (p : NodeAttrs) : overrideAttrs p p = p := by
  simp [overrideAttrs, oOr_self]

theorem applyChangesTo_mk (cs : List Change) :
    ∀ (n : Node), applyChangesTo n cs =
      ⟨n.uid, cs.foldl (fun a c => overrideAttrs (patchOfChange c) a) n.attrs, n.searched⟩ := by
  induction cs with
  | nil => intro n; rfl
  | cons c cs ih =>
    intro n
    rw [show applyChangesTo n (c :: cs) = applyChangesTo (assignChange c n) cs from rfl, ih]
    rfl

theorem foldOverride_shift (cs : List Change) :
    ∀ (a : NodeAttrs), cs.foldl (fun a c => overrideAttrs (patchOfChange c) a) a =
      overrideAttrs
        (cs.foldl (fun acc c => overrideAttrs (patchOfChange c) acc) NodeAttrs.empty) a := by
  induction cs with
  | nil => intro a; exact (overrideAttrs_empty_left a).symm
  | cons c cs ih =>
    intro a
    rw [show (c :: cs).foldl (fun a c => overrideAttrs (patchOfChange c) a) a =
        cs.foldl (fun a c => overrideAttrs (patchOfChange c) a)
          (overrideAttrs (patchOfChange c) a) from rfl]
    rw [ih, show (c :: cs).foldl (fun a c => overrideAttrs (patchOfChange c) a) NodeAttrs.empty =
        cs.foldl (fun a c => overrideAttrs (patchOfChange c) a)
          (overrideAttrs (patchOfChange c) NodeAttrs.empty) from rfl]
    rw [ih (overrideAttrs (patchOfChange c) NodeAttrs.empty), overrideAttrs_empty_right,
      overrideAttrs_assoc]

theorem applyChangesTo_idem (n : Node) (cs : List Change) :
    applyChangesTo (applyChangesTo n cs) cs = applyChangesTo n cs := by
  rw [applyChangesTo_mk, applyChangesTo_mk]
  have h1 : ∀ (a : NodeAttrs),
      cs.foldl (fun a c => overrideAttrs (patchOfChange c) a)
          (cs.foldl (fun a c => overrideAttrs (patchOfChange c) a) a) =
        cs.foldl (fun a c => overrideAttrs (patchOfChange c) a) a := by
    intro a
    rw [foldOverride_shift, foldOverride_shift cs a, overrideAttrs_assoc, overrideAttrs_self]
  dsimp only
  rw [h1]

theorem applyChangesTo_uid (n : Node) (cs : List Change) :
    (applyChangesTo n cs).uid = n.uid := by
  rw [applyChangesTo_mk]

theorem runChanges_nil : ∀ (cs : List Change), runChanges [] cs = [] := by
  intro cs
  induction cs with
  | nil => rfl
  | cons c cs ih =>
    rw [show runChanges [] (c :: cs) = runChanges (applyChangeFlagged [] c) cs from rfl]
    exact ih

theorem runChanges_cons : ∀ (cs : List Change) (n : Node) (b : Bool) (l : List (Node × Bool)),
    runChanges ((n, b) :: l) cs =
      ((if b then applyChangesTo n (cs.filter (fun c => n.uid == c.uid)) else n), b) ::
        runChanges l (if b then cs.filter (fun c => !(n.uid == c.uid)) else cs) := by
  intro cs
  induction cs with
  | nil =>
    intro n b l
    cases b <;> simp [runChanges, applyChangesTo]
  | cons c cs ih =>
    intro n b l
    rw [show runChanges ((n, b) :: l) (c :: cs) =
      runChanges (applyChangeFlagged ((n, b) :: l) c) cs from rfl]
    cases b with
    | false =>
      have happ : applyChangeFlagged ((n, false) :: l) c =
          (n, false) :: applyChangeFlagged l c := by
        simp [applyChangeFlagged, modifyFirst]
      rw [happ, ih]
      simp only [Bool.false_eq_true, if_false]
      rfl
    | true =>
      cases hu : (n.uid == c.uid) with
      | true =>
        have happ : applyChangeFlagged ((n, true) :: l) c = (assignChange c n, true) :: l := by
          simp [applyChangeFlagged, modifyFirst, hu]
        rw [happ, ih]
        have hhead : applyChangesTo n ((c :: cs).filter (fun c' => n.uid == c'.uid)) =
            applyChangesTo (assignChange c n) (cs.filter (fun c' => n.uid == c'.uid)) := by
          rw [List.filter_cons, if_pos (by simpa using hu)]
          rfl
        have htail : (c :: cs).filter (fun c' => !(n.uid == c'.uid)) =
            cs.filter (fun c' => !(n.uid == c'.uid)) := by
          rw [List.filter_cons, if_neg (by simp [hu])]
        simp only [assignChange_uid, if_true, hhead, htail]
      | false =>
        have happ : applyChangeFlagged ((n, true) :: l) c =
            (n, true) :: applyChangeFlagged l c := by
          simp [applyChangeFlagged, modifyFirst, hu]
        rw [happ, ih]
        have hhead : (c :: cs).filter (fun c' => n.uid == c'.uid) =
            cs.filter (fun c' => n.uid == c'.uid) := by
          rw [List.filter_cons, if_neg (by simp [hu])]
        have htail : (c :: cs).filter (fun c' => !(n.uid == c'.uid)) =
            c :: cs.filter (fun c' => !(n.uid == c'.uid)) := by
          rw [List.filter_cons, if_pos (by simp [hu])]
        simp only [if_true, hhead, htail]
        rfl

theorem runChanges_idem : ∀ (l : List (Node × Bool)) (cs : List Change),
    runChanges (runChanges l cs) cs = runChanges l cs := by
  intro l
  induction l with
  | nil => intro cs; rw [runChanges_nil, runChanges_nil]
  | cons nb l ih =>
    intro cs
    obtain ⟨n, b⟩ := nb
    rw [runChanges_cons]
    cases b with
    | false =>
      simp only [Bool.false_eq_true, if_false]
      rw [runChanges_cons]
      simp only [Bool.false_eq_true, if_false, ih]
    | true =>
      simp only [if_true]
      rw [runChanges_cons]
      simp only [if_true, applyChangesTo_uid, applyChangesTo_idem, ih]

theorem applyChangeFlagged_snd (c : Change) :
    ∀ (l : List (Node × Bool)), (applyChangeFlagged l c).map Prod.snd = l.map Prod.snd := by
  intro l
  induction l with
  | nil => rfl
  | cons nb l ih =>
    by_cases hp : (nb.2 && (nb.1.uid == c.uid)) = true
    · simp [applyChangeFlagged, modifyFirst, hp]
    · simp only [applyChangeFlagged, modifyFirst, if_neg hp, List.map_cons]
      rw [show (modifyFirst (fun nb => nb.2 && nb.1.uid == c.uid)
        (fun nb => (assignChange c nb.1, nb.2)) l) = applyChangeFlagged l c from rfl, ih]

theorem runChanges_snd : ∀ (cs : List Change) (l : List (Node × Bool)),
    (runChanges l cs).map Prod.snd = l.map Prod.snd := by
  intro cs
  induction cs with
  | nil => intro l; rfl
  | cons c cs ih =>
    intro l
    rw [show runChanges l (c :: cs) = runChanges (applyChangeFlagged l c) cs from rfl, ih,
      applyChangeFlagged_snd]

theorem retag_of_all_true : ∀ (X : List (Node × Bool)), (∀ nb ∈ X, nb.2 = true) →
    (X.map Prod.fst).map (fun n => (n, true)) = X := by
  intro X
  induction X with
  | nil => intro _; rfl
  | cons nb X ih =>
    intro h
    obtain ⟨n, b⟩ := nb
    have hb : b = true := h (n, b) (List.mem_cons_self _ _)
    subst hb
    simp only [List.map_cons, ih (fun x hx => h x (List.mem_cons_of_mem _ hx))]

theorem updateTemporalNodes_idem (l : List Node) (cs : List Change) (t : ℚ) :
    updateTemporalNodes (updateTemporalNodes l cs t) cs t = updateTemporalNodes l cs t := by
  unfold updateTemporalNodes
  have htrue : ∀ nb ∈ runChanges (l.map (fun n => (n, true))) (cs.filter (fun c => c.time == t)),
      nb.2 = true := by
    intro nb hnb
    have hmem : nb.2 ∈ (runChanges (l.map (fun n => (n, true)))
        (cs.filter (fun c => c.time == t))).map Prod.snd :=
      List.mem_map_of_mem Prod.snd hnb
    rw [runChanges_snd, List.map_map] at hmem
    obtain ⟨x, -, hx⟩ := List.mem_map.mp hmem
    exact hx.symm
  rw [retag_of_all_true _ htrue, runChanges_idem]

theorem keepNode_applyChangesTo (fl : String) :
    ∀ (cs : List Change), (∀ c ∈ cs, ∀ m, keepNode fl (assignChange c m) = keepNode fl m) →
      ∀ (n : Node), keepNode fl (applyChangesTo n cs) = keepNode fl n := by
  intro cs
  induction cs with
  | nil => intro _ n; rfl
  | cons c cs ih =>
    intro h n
    rw [show applyChangesTo n (c :: cs) = applyChangesTo (assignChange c n) cs from rfl]
    rw [ih (fun c' hc' => h c' (List.mem_cons_of_mem _ hc')) _,
      h c (List.mem_cons_self _ _)]

theorem filterNodes_runChanges (fl : String) :
    ∀ (nodes : List Node) (cs : List Change),
      (∀ c ∈ cs, ∀ m, keepNode fl (assignChange c m) = keepNode fl m) →
      filterNodes fl ((runChanges (nodes.map (fun n => (n, keepNode fl n))) cs).map Prod.fst) =
        (runChanges ((filterNodes fl nodes).map (fun n => (n, true))) cs).map Prod.fst := by
  intro nodes
  induction nodes with
  | nil => intro cs _; simp [runChanges_nil, filterNodes]
  | cons n ns ih =>
    intro cs hpres
    rw [show ((n :: ns).map (fun n => (n, keepNode fl n))) =
      (n, keepNode fl n) :: ns.map (fun n => (n, keepNode fl n)) from rfl]
    rw [runChanges_cons]
    cases hk : keepNode fl n with
    | true =>
      have hfln : filterNodes fl (n :: ns) = n :: filterNodes fl ns := by
        unfold filterNodes
        rw [List.filter_cons, if_pos (by simp [hk])]
      simp only [if_true, List.map_cons]
      have hkm : keepNode fl (applyChangesTo n (cs.filter (fun c => n.uid == c.uid))) = true := by
        rw [keepNode_applyChangesTo fl _
          (fun c' hc' m => hpres c' (List.mem_of_mem_filter hc') m) n]
        exact hk
      have hfcons : filterNodes fl
          (applyChangesTo n (cs.filter (fun c => n.uid == c.uid)) ::
            (runChanges (ns.map (fun n => (n, keepNode fl n)))
              (cs.filter (fun c => !(n.uid == c.uid)))).map Prod.fst) =
          applyChangesTo n (cs.filter (fun c => n.uid == c.uid)) ::
            filterNodes fl ((runChanges (ns.map (fun n => (n, keepNode fl n)))
              (cs.filter (fun c => !(n.uid == c.uid)))).map Prod.fst) := by
        unfold filterNodes
        rw [List.filter_cons, if_pos (by simp [hkm])]
      rw [hfcons, ih (cs.filter (fun c => !(n.uid == c.uid)))
        (fun c' hc' m => hpres c' (List.mem_of_mem_filter hc') m)]
      rw [hfln]
      rw [show ((n :: filterNodes fl ns).map (fun n => (n, true))) =
        (n, true) :: (filterNodes fl ns).map (fun n => (n, true)) from rfl]
      rw [runChanges_cons]
      simp only [if_true, List.map_cons]
    | false =>
      have hfln : filterNodes fl (n :: ns) = filterNodes fl ns := by
        unfold filterNodes
        rw [List.filter_cons, if_neg (by simp [hk])]
      simp only [Bool.false_eq_true, if_false, List.map_cons]
      have hfcons : filterNodes fl
          (n :: (runChanges (ns.map (fun n => (n, keepNode fl n))) cs).map Prod.fst) =
          filterNodes fl ((runChanges (ns.map (fun n => (n, keepNode fl n))) cs).map Prod.fst) := by
        unfold filterNodes
        rw [List.filter_cons, if_neg (by simp [hk])]
      rw [hfcons, ih cs hpres, hfln]

theorem keep_preserved (fl : String) (t : ℚ) (changes : List Change)
    (H : fl = "all" ∨ ∀ c ∈ changes, c.time = t → c.patch.group = none) :
    ∀ c ∈ changes.filter (fun c => c.time == t), ∀ m,
      keepNode fl (assignChange c m) = keepNode fl m := by
  intro c hc m
  rcases H with hall | hgrp
  · subst hall
    rfl
  · have hmem := List.mem_filter.mp hc
    have hgr : c.patch.group = none := hgrp c hmem.1 (eq_of_beq hmem.2)
    unfold keepNode assignChange overrideAttrs patchOfChange
    rw [show ({ c.patch with time := some c.time } : NodeAttrs).group = c.patch.group from rfl, hgr]
    rfl

theorem filterNodes_full_update (fl : String) (nodes : List Node) (changes : List Change) (t : ℚ)
    (H : fl = "all" ∨ ∀ c ∈ changes, c.time = t → c.patch.group = none) :
    filterNodes fl (updateTemporalNodesFull fl nodes changes t) =
      updateTemporalNodes (filterNodes fl nodes) changes t := by
  unfold updateTemporalNodesFull updateTemporalNodes
  exact filterNodes_runChanges fl nodes _ (keep_preserved fl t changes H)

/-- C6 (amended): `render()` is idempotent under unchanged state
provided the scheduled changes applied at the current time do not alter
node group membership (the group filter is `all`, or no change at the
current instant patches the group attribute): rendering twice yields the
same scene as rendering once. -/
theorem render_idempotent (s : VisState)
    (H : s.filterSetting = "all" ∨
      ∀ c ∈ s.changes, c.time = s.time.time → c.patch.group = none) :
    (renderStep (renderStep s).1).2 = (renderStep s).2 := by
  obtain ⟨nodes, links, changes, ext, rmin, rmax, fl, tw, temp⟩ := s
  cases temp with
  | false => rfl
  | true =>
    have H' : fl = "all" ∨ ∀ c ∈ changes, c.time = tw.time → c.patch.group = none := H
    simp only [renderStep, if_true]
    rw [filterNodes_full_update fl nodes changes tw.time H', updateTemporalNodes_idem]

/-- C6 counterexample: with an active group filter g and a scheduled
change at the current time that rewrites the only node into group h, the
first render shows the node but mutates it in place, so the second
render filters it out: the scenes differ, refuting unconditional
idempotence. -/
theorem render_not_idempotent :
    (renderStep (renderStep ⟨[⟨"x", ⟨none, some "g", none, none, none, none, none⟩, false⟩],
        [], [⟨"x", 0, ⟨none, some "h", none, none, none, none, none⟩⟩], (6, 6), 4, 16,
        "g", ⟨0, 0, 0, 0⟩, true⟩).1).2 ≠
      (renderStep ⟨[⟨"x", ⟨none, some "g", none, none, none, none, none⟩, false⟩],
        [], [⟨"x", 0, ⟨none, some "h", none, none, none, none, none⟩⟩], (6, 6), 4, 16,
        "g", ⟨0, 0, 0, 0⟩, true⟩).2 := by
  decide

/-- C6 witness: a temporal state whose change patches only the colour
satisfies the hypothesis, and rendering twice equals rendering once. -/
theorem render_idempotent_witness :
    ((⟨[⟨"x", ⟨none, some "g", none, none, none, none, none⟩, false⟩], [],
        [⟨"x", 0, ⟨none, none, none, some "red", none, none, none⟩⟩], (6, 6), 4, 16,
        "g", ⟨0, 0, 0, 0⟩, true⟩ : VisState).filterSetting = "all" ∨
      ∀ c ∈ (⟨[⟨"x", ⟨none, some "g", none, none, none, none, none⟩, false⟩], [],
          [⟨"x", 0, ⟨none, none, none, some "red", none, none, none⟩⟩], (6, 6), 4, 16,
          "g", ⟨0, 0, 0, 0⟩, true⟩ : VisState).changes,
        c.time = (⟨[⟨"x", ⟨none, some "g", none, none, none, none, none⟩, false⟩], [],
          [⟨"x", 0, ⟨none, none, none, some "red", none, none, none⟩⟩], (6, 6), 4, 16,
          "g", ⟨0, 0, 0, 0⟩, true⟩ : VisState).time.time → c.patch.group = none) ∧
    (renderStep (renderStep ⟨[⟨"x", ⟨none, some "g", none, none, none, none, none⟩, false⟩], [],
        [⟨"x", 0, ⟨none, none, none, some "red", none, none, none⟩⟩], (6, 6), 4, 16,
        "g", ⟨0, 0, 0, 0⟩, true⟩).1).2 =
      (renderStep ⟨[⟨"x", ⟨none, some "g", none, none, none, none, none⟩, false⟩], [],
        [⟨"x", 0, ⟨none, none, none, some "red", none, none, none⟩⟩], (6, 6), 4, 16,
        "g", ⟨0, 0, 0, 0⟩, true⟩).2 :=
  ⟨Or.inr (by decide),
    render_idempotent
      ⟨[⟨"x", ⟨none, some "g", none, none, none, none, none⟩, false⟩], [],
        [⟨"x", 0, ⟨none, none, none, some "red", none, none, none⟩⟩], (6, 6), 4, 16,
        "g", ⟨0, 0, 0, 0⟩, true⟩ (Or.inr (by decide))⟩
